import Mathlib

/-!
Shallow embedding of the Visual-Editor-Web-App scene model and interaction
engine (src/src/components/Canvas.tsx and the App component), over exact
rational arithmetic.  JavaScript numbers are modelled by ℚ: every operation
the embedded code performs (+, -, *, /, min, max, floor) is exact on the
inputs the claims quantify over.  Where the source calls Math.cos/Math.sin of
a rotation, the embedding takes the pair of values as an oracle parameter
`trig` (the cosine and sine of `-(θ·π/180)`); theorems quantify over every
oracle, hence hold in particular for the true cosine/sine.  Where the source
compares `Math.sqrt(d) < c` with `d ≥ 0, c ≥ 0`, the embedding uses the
equivalent exact comparison `d < c^2`, and `Math.floor (Math.sqrt d / 2)`
becomes the equal value `Nat.sqrt ⌊d/4⌋`.
-/

namespace VisualEditor

/-- The `CANVAS_WIDTH` constant in Canvas.tsx. -/
def CANVAS_WIDTH : ℚ := 1200

/-- The `CANVAS_HEIGHT` constant in Canvas.tsx. -/
def CANVAS_HEIGHT : ℚ := 800

structure Point where
  x : ℚ
  y : ℚ
deriving DecidableEq, Repr

/-- The `transform` field of a CanvasObject (App.tsx `Transform`). -/
structure Transform where
  x : ℚ
  y : ℚ
  width : ℚ
  height : ℚ
  rotation : ℚ
deriving DecidableEq, Repr

/-- The `style` field of a CanvasObject. -/
structure Style where
  strokeColor : String
  fillColor : String
  strokeWidth : ℚ
  opacity : Option ℚ
deriving DecidableEq, Repr

/-- One normalized erase-mask point `{x, y, size}`. -/
structure ErasePoint where
  x : ℚ
  y : ℚ
  size : ℚ
deriving DecidableEq, Repr

/-- One frozen spray particle `{x, y, size, alpha}`. -/
structure Particle where
  x : ℚ
  y : ℚ
  size : ℚ
  alpha : ℚ
deriving DecidableEq, Repr

inductive BrushType
  | normal
  | spray
  | marker
deriving DecidableEq, Repr

/-- The `type` tag of a CanvasObject. -/
inductive ObjType
  | drawn
  | rectangle
  | circle
  | triangle
  | line
  | polygon
  | star
  | merged
  | image
deriving DecidableEq, Repr

/-- The untyped `data: any` payload, modelled as a record of the fields the
source actually reads; fields a given object kind does not carry are `none`. -/
structure ObjData where
  path : Option (List Point)
  brushType : Option BrushType
  sprayParticles : Option (List Particle)
  imageUrl : Option String
  originalWidth : Option ℚ
  originalHeight : Option ℚ
  erasedAreas : List (List ErasePoint)
deriving DecidableEq, Repr

/-- A CanvasObject (App.tsx).  `children` models the optional `children`
field; the source only reads it on objects of type `merged`, where
`handleMerge` always sets it, so non-merged objects carry `[]` here. -/
inductive CanvasObject where
  | mk (id : String) (type : ObjType) (transform : Transform) (style : Style)
      (data : ObjData) (children : List CanvasObject)

def CanvasObject.id : CanvasObject → String
  | .mk i _ _ _ _ _ => i

def CanvasObject.type : CanvasObject → ObjType
  | .mk _ t _ _ _ _ => t

def CanvasObject.transform : CanvasObject → Transform
  | .mk _ _ t _ _ _ => t

def CanvasObject.style : CanvasObject → Style
  | .mk _ _ _ s _ _ => s

def CanvasObject.data : CanvasObject → ObjData
  | .mk _ _ _ _ d _ => d

def CanvasObject.children : CanvasObject → List CanvasObject
  | .mk _ _ _ _ _ c => c

/-- The `constrainToCanvas` helper (Canvas.tsx lines 106-113).  Returns the clamped
`{x, y, width, height}`. -/
def constrainToCanvas (x y width height : ℚ) : ℚ × ℚ × ℚ × ℚ :=
  (max 0 (min x (CANVAS_WIDTH - width)),
   max 0 (min y (CANVAS_HEIGHT - height)),
   min width CANVAS_WIDTH,
   min height CANVAS_HEIGHT)

/-- The eight resize handle ids. -/
inductive Handle
  | nw | n | ne | e | se | s | sw | w
deriving DecidableEq, Repr

/-- Whether the handle id string contains the letter n. -/
def Handle.hasN : Handle → Bool
  | .nw | .n | .ne => true
  | _ => false

/-- Whether the handle id string contains the letter s. -/
def Handle.hasS : Handle → Bool
  | .sw | .s | .se => true
  | _ => false

/-- Whether the handle id string contains the letter w. -/
def Handle.hasW : Handle → Bool
  | .nw | .w | .sw => true
  | _ => false

/-- Whether the handle id string contains the letter e. -/
def Handle.hasE : Handle → Bool
  | .ne | .e | .se => true
  | _ => false

/-- The raw edge adjustment of a resize step (Canvas.tsx lines 1115-1128),
before the minimum-size and canvas clamps. -/
def rawResize (t : Transform) (h : Handle) (dx dy : ℚ) : Transform :=
  let t1 := if h.hasN then { t with y := t.y + dy, height := t.height - dy } else t
  let t2 := if h.hasS then { t1 with height := t1.height + dy } else t1
  let t3 := if h.hasW then { t2 with x := t2.x + dx, width := t2.width - dx } else t2
  if h.hasE then { t3 with width := t3.width + dx } else t3

/-- One full resize step of `handleMouseMove` (Canvas.tsx lines 1107-1140):
apply the handle's edge deltas, clamp width/height below at 10, then route
through `constrainToCanvas`. -/
def resizeStep (t : Transform) (h : Handle) (dx dy : ℚ) : Transform :=
  let t1 := rawResize t h dx dy
  let t2 := { t1 with width := if t1.width < 10 then 10 else t1.width,
                      height := if t1.height < 10 then 10 else t1.height }
  let c := constrainToCanvas t2.x t2.y t2.width t2.height
  { t2 with x := c.1, y := c.2.1, width := c.2.2.1, height := c.2.2.2 }

/-- Path rescaling applied to a Drawn object's stored path during a resize
(Canvas.tsx lines 1145-1154). -/
def resizePath (old new : Transform) (path : List Point) : List Point :=
  let scaleX := new.width / old.width
  let scaleY := new.height / old.height
  let offsetX := new.x - old.x
  let offsetY := new.y - old.y
  path.map fun p =>
    { x := old.x + (p.x - old.x) * scaleX + offsetX,
      y := old.y + (p.y - old.y) * scaleY + offsetY }

/-- One drag step of `handleMouseMove` (Canvas.tsx lines 1176-1183): the new
origin is the pointer minus the grab offset, routed through
`constrainToCanvas`; width/height are untouched. -/
def dragStep (t : Transform) (pos dragOffset : Point) : Transform :=
  let c := constrainToCanvas (pos.x - dragOffset.x) (pos.y - dragOffset.y) t.width t.height
  { t with x := c.1, y := c.2.1 }

/-- Shape-draft commit of `handleMouseUp` (Canvas.tsx lines 1269-1296):
drafts of width or height ≤ 10 are discarded (`none`); otherwise the draft
rect is constrained and committed with rotation 0. -/
def shapeCommitTransform (shapeStart shapeCurrent : Point) : Option Transform :=
  let x := min shapeStart.x shapeCurrent.x
  let y := min shapeStart.y shapeCurrent.y
  let width := |shapeCurrent.x - shapeStart.x|
  let height := |shapeCurrent.y - shapeStart.y|
  if 10 < width ∧ 10 < height then
    let c := constrainToCanvas x y width height
    some { x := c.1, y := c.2.1, width := c.2.2.1, height := c.2.2.2, rotation := 0 }
  else
    none

/-- The invariant C1 claims after every committed mutation: minimum size 10
and the rect inside the canvas extent. -/
def transformInv (t : Transform) : Prop :=
  10 ≤ t.width ∧ 10 ≤ t.height ∧
  0 ≤ t.x ∧ t.x + t.width ≤ CANVAS_WIDTH ∧
  0 ≤ t.y ∧ t.y + t.height ≤ CANVAS_HEIGHT

instance (t : Transform) : Decidable (transformInv t) := by
  unfold transformInv; infer_instance

/-- The `particleDensity` value (Canvas.tsx line 29): `Math.max(1, Math.floor(strokeWidth / 2))`. -/
def particleDensity (strokeWidth : ℚ) : ℕ :=
  max 1 (⌊strokeWidth / 2⌋).toNat

/-- The per-segment particle count (Canvas.tsx lines 36-37):
`Math.max(particleDensity, Math.floor(dist / 2))` where
`dist = Math.sqrt((x2-x1)² + (y2-y1)²)`.  Since
`⌊√d/2⌋ = ⌊√(d/4)⌋ = Nat.sqrt ⌊d/4⌋` for `d ≥ 0`, this is computed exactly. -/
def segParticleCount (x1 y1 x2 y2 strokeWidth : ℚ) : ℕ :=
  let d2 := (x2 - x1) ^ 2 + (y2 - y1) ^ 2
  max (particleDensity strokeWidth) (Nat.sqrt (⌊d2 / 4⌋).toNat)

/-- One spray particle (Canvas.tsx lines 40-54).  `rnd` is the stream of
successive `Math.random()` results; a particle consumes the four values at
indices `c, c+1, c+2, c+3` (offsetX, offsetY, size, alpha, in call order). -/
def sprayParticle (x1 y1 x2 y2 strokeWidth : ℚ) (count : ℕ) (rnd : ℕ → ℚ) (c j : ℕ) :
    Particle :=
  let t : ℚ := (j : ℚ) / (count : ℚ)
  let px := x1 + (x2 - x1) * t
  let py := y1 + (y2 - y1) * t
  let spread := strokeWidth * (3 / 2)
  let offsetX := (rnd c - 1 / 2) * spread
  let offsetY := (rnd (c + 1) - 1 / 2) * spread
  { x := px + offsetX,
    y := py + offsetY,
    size := rnd (c + 2) * (strokeWidth / 3) + 1,
    alpha := rnd (c + 3) * (1 / 2) + 3 / 10 }

/-- The outer segment loop of `generateSprayParticles` (Canvas.tsx lines
31-56), threading the `Math.random()` call counter `c` through the segments. -/
def sprayAux (strokeWidth objectX objectY : ℚ) (rnd : ℕ → ℚ) :
    List Point → ℕ → List Particle
  | [], _ => []
  | [_], _ => []
  | p :: q :: rest, c =>
    let x1 := p.x - objectX
    let y1 := p.y - objectY
    let x2 := q.x - objectX
    let y2 := q.y - objectY
    let count := segParticleCount x1 y1 x2 y2 strokeWidth
    (List.range count).map
        (fun j => sprayParticle x1 y1 x2 y2 strokeWidth count rnd (c + 4 * j) j)
      ++ sprayAux strokeWidth objectX objectY rnd (q :: rest) (c + 4 * count)

/-- The `generateSprayParticles` function (Canvas.tsx lines 22-59). -/
def generateSprayParticles (path : List Point) (strokeWidth objectX objectY : ℚ)
    (rnd : ℕ → ℚ) : List Particle :=
  sprayAux strokeWidth objectX objectY rnd path 0

/-- The path bounding box of the brush commit (Canvas.tsx lines 1226-1232),
as `(minX, minY, maxX, maxY)`.  The source folds from `±Infinity`; on the
nonempty paths the commit guard admits this equals the fold from the head. -/
def brushBBox : List Point → ℚ × ℚ × ℚ × ℚ
  | [] => (0, 0, 0, 0)
  | p :: rest =>
    rest.foldl
      (fun acc q => (min acc.1 q.x, min acc.2.1 q.y, max acc.2.2.1 q.x, max acc.2.2.2 q.y))
      (p.x, p.y, p.x, p.y)

/-- The brush commit of `handleMouseUp` (Canvas.tsx lines 1224-1268): with
fewer than two path points nothing is committed; otherwise a Drawn object is
created whose bounding box is the path's extent padded by the stroke width,
with spray particles generated once here iff the brush kind is spray. -/
def commitBrush (path : List Point) (brushSize : ℚ) (brushColor : String)
    (brushType : BrushType) (brushOpacity : ℚ) (newId : String) (rnd : ℕ → ℚ) :
    Option CanvasObject :=
  if 1 < path.length then
    let b := brushBBox path
    let padding := brushSize
    let objectX := b.1 - padding
    let objectY := b.2.1 - padding
    let sprayParticles :=
      if brushType = .spray then
        some (generateSprayParticles path brushSize objectX objectY rnd)
      else none
    some (.mk newId .drawn
      { x := objectX, y := objectY,
        width := b.2.2.1 - b.1 + padding * 2,
        height := b.2.2.2 - b.2.1 + padding * 2,
        rotation := 0 }
      { strokeColor := brushColor, fillColor := "transparent",
        strokeWidth := brushSize, opacity := some brushOpacity }
      { path := some path, brushType := some brushType,
        sprayParticles := sprayParticles, imageUrl := none,
        originalWidth := none, originalHeight := none, erasedAreas := [] }
      [])
  else none

/-- Distance test of one path segment in `isPointInObject` (Canvas.tsx lines
124-164).  The source compares `Math.sqrt(dx²+dy²) < 15`; the embedding uses
the equivalent exact comparison `dx²+dy² < 225`. -/
def segmentHit (x y x1 y1 x2 y2 : ℚ) : Bool :=
  let A := x - x1
  let B := y - y1
  let C := x2 - x1
  let D := y2 - y1
  let dot := A * C + B * D
  let lenSq := C * C + D * D
  let param : ℚ := if lenSq ≠ 0 then dot / lenSq else -1
  let xx := if param < 0 then x1 else if 1 < param then x2 else x1 + param * C
  let yy := if param < 0 then y1 else if 1 < param then y2 else y1 + param * D
  let dx := x - xx
  let dy := y - yy
  decide (dx * dx + dy * dy < 225)

/-- The segment loop of the Drawn branch of `isPointInObject`. -/
def pathSegmentsHit (x y : ℚ) : List Point → Bool
  | [] => false
  | [_] => false
  | p :: q :: rest => segmentHit x y p.x p.y q.x q.y || pathSegmentsHit x y (q :: rest)

/-- The hit test `isPointInObject` (Canvas.tsx lines 115-187).  For Drawn objects with a
stored path: near-segment test, else the unrotated bounding-box fallback.
For all other objects: bounding box, un-rotating the point first when
rotation ≠ 0 (the cosine/sine of `-(rotation·π/180)` come from `trig`). -/
def isPointInObject (trig : ℚ → ℚ × ℚ) (x y : ℚ) (obj : CanvasObject) : Bool :=
  let t := obj.transform
  match obj.type, obj.data.path with
  | .drawn, some path =>
    pathSegmentsHit x y path ||
      decide (t.x ≤ x ∧ x ≤ t.x + t.width ∧ t.y ≤ y ∧ y ≤ t.y + t.height)
  | _, _ =>
    if t.rotation = 0 then
      decide (t.x ≤ x ∧ x ≤ t.x + t.width ∧ t.y ≤ y ∧ y ≤ t.y + t.height)
    else
      let centerX := t.x + t.width / 2
      let centerY := t.y + t.height / 2
      let cs := trig t.rotation
      let dx := x - centerX
      let dy := y - centerY
      let rotatedX := dx * cs.1 - dy * cs.2 + centerX
      let rotatedY := dx * cs.2 + dy * cs.1 + centerY
      decide (t.x ≤ rotatedX ∧ rotatedX ≤ t.x + t.width ∧
              t.y ≤ rotatedY ∧ rotatedY ≤ t.y + t.height)

/-- The absolute-transform record threaded through the eraser recursion
(the `parentTransform` parameter of `applyEraserToObject`). -/
structure ParentT where
  x : ℚ
  y : ℚ
  rotation : ℚ
  scaleX : ℚ
  scaleY : ℚ
deriving DecidableEq, Repr

/-- The absolute transform of a merged object given its optional parent
(Canvas.tsx lines 226-239): position scaled into the parent frame, rotations
added, scales multiplied. -/
def composeAbs (parent : Option ParentT) (t : Transform)
    (originalWidth originalHeight : ℚ) : ParentT :=
  let scaleX := t.width / originalWidth
  let scaleY := t.height / originalHeight
  match parent with
  | none => ⟨t.x, t.y, t.rotation, scaleX, scaleY⟩
  | some p =>
    ⟨p.x + t.x * p.scaleX, p.y + t.y * p.scaleY, p.rotation + t.rotation,
     p.scaleX * scaleX, p.scaleY * scaleY⟩

/-- The eraser position re-projected into a merged object's local, unscaled
frame (Canvas.tsx lines 241-254). -/
def groupLocalPoint (trig : ℚ → ℚ × ℚ) (pos : Point) (abs : ParentT) (t : Transform)
    (originalWidth originalHeight : ℚ) : ℚ × ℚ :=
  let centerX := abs.x + t.width / 2
  let centerY := abs.y + t.height / 2
  let dx := pos.x - centerX
  let dy := pos.y - centerY
  let cs := trig abs.rotation
  let rotatedX := dx * cs.1 - dy * cs.2
  let rotatedY := dx * cs.2 + dy * cs.1
  (rotatedX / abs.scaleX + originalWidth / 2,
   rotatedY / abs.scaleY + originalHeight / 2)

/-- The recursion guard of the merged branch (Canvas.tsx line 261): the
re-projected eraser position lies inside the child's local bounding box. -/
def groupHitChild (trig : ℚ → ℚ × ℚ) (pos : Point) (abs : ParentT) (t : Transform)
    (originalWidth originalHeight : ℚ) (c : CanvasObject) : Prop :=
  let lp := groupLocalPoint trig pos abs t originalWidth originalHeight
  c.transform.x ≤ lp.1 ∧ lp.1 ≤ c.transform.x + c.transform.width ∧
  c.transform.y ≤ lp.2 ∧ lp.2 ≤ c.transform.y + c.transform.height

instance (trig : ℚ → ℚ × ℚ) (pos : Point) (abs : ParentT) (t : Transform)
    (ow oh : ℚ) (c : CanvasObject) : Decidable (groupHitChild trig pos abs t ow oh c) := by
  unfold groupHitChild
  infer_instance

/-- The normalized mask point a non-group object stores for one eraser
position (Canvas.tsx lines 292-345): with a parent, project through the
parent frame and divide the size additionally by the parent's x-scale;
without, normalize directly by the object's own transform. -/
def leafErasePoint (trig : ℚ → ℚ × ℚ) (eraserSize : ℚ) (parent : Option ParentT)
    (t : Transform) (q : Point) : ErasePoint :=
  match parent with
  | some p =>
    let centerX := p.x + (t.x + t.width / 2) * p.scaleX
    let centerY := p.y + (t.y + t.height / 2) * p.scaleY
    let cs := trig p.rotation
    let dx := q.x - centerX
    let dy := q.y - centerY
    let rotatedX := dx * cs.1 - dy * cs.2
    let rotatedY := dx * cs.2 + dy * cs.1
    let localX := rotatedX / p.scaleX + t.width / 2
    let localY := rotatedY / p.scaleY + t.height / 2
    { x := localX / t.width, y := localY / t.height,
      size := eraserSize / min t.width t.height / p.scaleX }
  | none =>
    { x := (q.x - t.x) / t.width, y := (q.y - t.y) / t.height,
      size := eraserSize / min t.width t.height }

/-- The stroke a non-group object appends for one eraser event: the mapped
`currentPath` followed by the point for `currentPos` (Canvas.tsx lines
290-345). -/
def eraseStroke (trig : ℚ → ℚ × ℚ) (currentPath : List Point) (currentPos : Point)
    (eraserSize : ℚ) (parent : Option ParentT) (t : Transform) : List ErasePoint :=
  currentPath.map (leafErasePoint trig eraserSize parent t) ++
    [leafErasePoint trig eraserSize parent t currentPos]

/-- The recursive `applyEraserToObject` (Canvas.tsx lines 214-354).  Merged objects recurse
into exactly the children whose local bounding box contains the re-projected
eraser position, passing the composed absolute transform down; non-group
objects append one stroke (the mapped `currentPath` plus `currentPos`) to
`erasedAreas`. -/
def applyEraserToObject (trig : ℚ → ℚ × ℚ) (currentPath : List Point) (currentPos : Point)
    (eraserSize : ℚ) (parent : Option ParentT) : CanvasObject → CanvasObject
  | .mk oid ty t st data children =>
    if ty = .merged then
      let originalWidth := data.originalWidth.getD t.width
      let originalHeight := data.originalHeight.getD t.height
      let abs := composeAbs parent t originalWidth originalHeight
      let newChildren := children.attach.map fun c =>
        if groupHitChild trig currentPos abs t originalWidth originalHeight c.1 then
          applyEraserToObject trig currentPath currentPos eraserSize (some abs) c.1
        else c.1
      .mk oid ty t st data newChildren
    else
      .mk oid ty t st
        { data with erasedAreas := data.erasedAreas ++
            [eraseStroke trig currentPath currentPos eraserSize parent t] }
        children
termination_by o => sizeOf o
decreasing_by
  simp_wf
  have h := List.sizeOf_lt_of_mem c.2
  omega

/-- The eraser branch of `handleMouseMove` (Canvas.tsx lines 1080-1090):
apply the eraser to every hit top-level object. -/
def eraseStep (trig : ℚ → ℚ × ℚ) (objects : List CanvasObject)
    (currentPath : List Point) (pos : Point) (eraserSize : ℚ) : List CanvasObject :=
  objects.map fun obj =>
    if isPointInObject trig pos.x pos.y obj then
      applyEraserToObject trig currentPath pos eraserSize none obj
    else obj

/-- The `updateObjectStyle` helper (App component, src/unnamed/part_000 lines 154-175):
replace the style, recursing into all children of a merged object.  The UI
always passes a complete style record, so the `{...obj.style, ...updates}`
spread is a full replacement. -/
def updateObjectStyle (styleUpdates : Style) : CanvasObject → CanvasObject
  | .mk oid ty t _ data children =>
    if ty = .merged then
      .mk oid ty t styleUpdates data
        (children.attach.map fun c => updateObjectStyle styleUpdates c.1)
    else
      .mk oid ty t styleUpdates data children
termination_by o => sizeOf o
decreasing_by
  simp_wf
  have h := List.sizeOf_lt_of_mem c.2
  omega

/-- A `Partial<CanvasObject>` update as the UI layer sends it: an optional
replacement transform and/or style. -/
structure ObjUpdate where
  transform : Option Transform
  style : Option Style

/-- The `{ ...obj, ...updates }` spread of `handleObjectUpdate`. -/
def applySpread (obj : CanvasObject) (u : ObjUpdate) : CanvasObject :=
  .mk obj.id obj.type (u.transform.getD obj.transform) (u.style.getD obj.style)
    obj.data obj.children

/-- The `handleObjectUpdate` callback (src/unnamed/part_000 lines 177-193): requires a
single selection; style updates on a merged object recurse into children,
every other update is spread onto the object verbatim. -/
def handleObjectUpdate (objects : List CanvasObject) (selectedIds : List String)
    (u : ObjUpdate) : List CanvasObject :=
  if selectedIds.length ≠ 1 then objects
  else
    objects.map fun o =>
      if o.id = selectedIds.getD 0 "" then
        match u.style with
        | some st => if o.type = .merged then updateObjectStyle st o else applySpread o u
        | none => applySpread o u
      else o

/-- The App component state the history claims range over. -/
structure AppState where
  objects : List CanvasObject
  selectedIds : List String
  history : List (List CanvasObject)
  historyIndex : ℕ

/-- The `handleUndo` callback (src/unnamed/part_000 lines 57-63).  The source indexes
`history[historyIndex - 1]`, in range whenever the guard holds and the index
is within the history; `getD` supplies an irrelevant default. -/
def handleUndo (s : AppState) : AppState :=
  if 0 < s.historyIndex then
    { s with historyIndex := s.historyIndex - 1,
             objects := s.history.getD (s.historyIndex - 1) [],
             selectedIds := [] }
  else s

/-- The `handleRedo` callback (src/unnamed/part_000 lines 65-71).  The JS guard
`historyIndex < history.length - 1` on integers is `historyIndex + 1 <
history.length`. -/
def handleRedo (s : AppState) : AppState :=
  if s.historyIndex + 1 < s.history.length then
    { s with historyIndex := s.historyIndex + 1,
             objects := s.history.getD (s.historyIndex + 1) [],
             selectedIds := [] }
  else s

/-- The union bounding box fold of `handleMerge` (src/unnamed/part_000 lines
202-209) as `(minX, minY, maxX, maxY)`.  The source folds from `±Infinity`;
on a nonempty selection this equals the fold from the first object. -/
def mergeBBox : List CanvasObject → ℚ × ℚ × ℚ × ℚ
  | [] => (0, 0, 0, 0)
  | o :: rest =>
    rest.foldl
      (fun acc obj =>
        let t := obj.transform
        (min acc.1 t.x, min acc.2.1 t.y,
         max acc.2.2.1 (t.x + t.width), max acc.2.2.2 (t.y + t.height)))
      (o.transform.x, o.transform.y,
       o.transform.x + o.transform.width, o.transform.y + o.transform.height)

/-- Re-expressing a selected object relative to the group origin
(src/unnamed/part_000 lines 236-266): subtract the clamped origin from the
transform, and for Drawn objects also from every stored path point. -/
def shiftChild (cX cY : ℚ) : CanvasObject → CanvasObject
  | .mk oid ty t st data children =>
    let rt := { t with x := t.x - cX, y := t.y - cY }
    match ty, data.path with
    | .drawn, some path =>
      .mk oid .drawn rt st
        { data with path := some (path.map fun p => { x := p.x - cX, y := p.y - cY }) }
        children
    | _, _ => .mk oid ty rt st data children

/-- The `handleMerge` callback (src/unnamed/part_000 lines 195-272).  `newId` stands for
the `merged-${Date.now()}` id.  Returns the new object list and selection. -/
def handleMerge (objects : List CanvasObject) (selectedIds : List String)
    (newId : String) : List CanvasObject × List String :=
  if selectedIds.length < 2 then (objects, selectedIds)
  else
    let selectedObjects := objects.filter fun o => selectedIds.contains o.id
    let remainingObjects := objects.filter fun o => !(selectedIds.contains o.id)
    let b := mergeBBox selectedObjects
    let mergedWidth := b.2.2.1 - b.1
    let mergedHeight := b.2.2.2 - b.2.1
    let constrainedX := max 0 (min b.1 (1200 - mergedWidth))
    let constrainedY := max 0 (min b.2.1 (800 - mergedHeight))
    let mergedObject : CanvasObject := .mk newId .merged
      { x := constrainedX, y := constrainedY,
        width := mergedWidth, height := mergedHeight, rotation := 0 }
      { strokeColor := "#000000", fillColor := "transparent",
        strokeWidth := 2, opacity := none }
      { path := none, brushType := none, sprayParticles := none, imageUrl := none,
        originalWidth := some mergedWidth, originalHeight := some mergedHeight,
        erasedAreas := [] }
      (selectedObjects.map (shiftChild constrainedX constrainedY))
    (remainingObjects ++ [mergedObject], [newId])

/-- Specification of one level of group nesting for the C3 scale-chain claim:
the group's id, transform, and captured original size. -/
structure GroupSpec where
  gid : String
  t : Transform
  ow : ℚ
  oh : ℚ

/-- A merged object exactly as `handleMerge` shapes it, with one child. -/
def mkGroup (g : GroupSpec) (child : CanvasObject) : CanvasObject :=
  .mk g.gid .merged g.t
    { strokeColor := "#000000", fillColor := "transparent", strokeWidth := 2, opacity := none }
    { path := none, brushType := none, sprayParticles := none, imageUrl := none,
      originalWidth := some g.ow, originalHeight := some g.oh, erasedAreas := [] }
    [child]

/-- A straight-line nest of groups around a leaf. -/
def nestGroups : List GroupSpec → CanvasObject → CanvasObject
  | [], leaf => leaf
  | g :: rest, leaf => mkGroup g (nestGroups rest leaf)

/-- The parent record after composing a whole chain of groups. -/
def composeChain : Option ParentT → List GroupSpec → Option ParentT
  | p, [] => p
  | p, g :: rest => composeChain (some (composeAbs p g.t g.ow g.oh)) rest

/-- The composed ancestor x-scale of a chain: the product of each group's
`width / originalWidth`. -/
def chainScaleX (chain : List GroupSpec) : ℚ :=
  (chain.map fun g => g.t.width / g.ow).prod

/-- Decides that one eraser sample recursively reaches the leaf of a nest:
at every level the re-projected position lies inside the next object's local
bounding box (the recursion guard of `applyEraserToObject`). -/
def eraserReachesB (trig : ℚ → ℚ × ℚ) (pos : Point) :
    Option ParentT → List GroupSpec → CanvasObject → Bool
  | _, [], _ => true
  | parent, g :: rest, leaf =>
    let abs := composeAbs parent g.t g.ow g.oh
    decide (groupHitChild trig pos abs g.t g.ow g.oh (nestGroups rest leaf))
      && eraserReachesB trig pos (some abs) rest leaf

/-- Descend `n` levels of first children. -/
def descend : CanvasObject → ℕ → CanvasObject
  | o, 0 => o
  | o, n + 1 => descend (o.children.headD o) n

/-- Composing a chain from a present parent, totalized. -/
def composeChainP (p : ParentT) : List GroupSpec → ParentT
  | [] => p
  | g :: rest => composeChainP (composeAbs (some p) g.t g.ow g.oh) rest

/-- The consecutive pairs of a path (the segments the spray loop walks). -/
def adjPairs : List Point → List (Point × Point)
  | [] => []
  | [_] => []
  | p :: q :: rest => (p, q) :: adjPairs (q :: rest)

/-- Asserts that `c` is a point of some path segment, interpolated exactly as the spray
generator does (object-relative coordinates, parameter `t ∈ [0,1)`). -/
def isSegInterp (path : List Point) (ox oy : ℚ) (c : ℚ × ℚ) : Prop :=
  ∃ pq ∈ adjPairs path, ∃ t : ℚ, 0 ≤ t ∧ t < 1 ∧
    c.1 = (pq.1.x - ox) + ((pq.2.x - ox) - (pq.1.x - ox)) * t ∧
    c.2 = (pq.1.y - oy) + ((pq.2.y - oy) - (pq.1.y - oy)) * t

/-! ## Theorems -/

/-- C5: undo/redo move the history index by ±1, restore that snapshot's
objects, clear the selection, and never modify the history itself; at the
boundaries (`index = 0` for undo, `index = last` for redo) they are exact
no-ops. -/
theorem c5_undo_redo_history (s : AppState) :
    (0 < s.historyIndex →
      (handleUndo s).historyIndex = s.historyIndex - 1 ∧
      (handleUndo s).objects = s.history.getD (s.historyIndex - 1) [] ∧
      (handleUndo s).selectedIds = [] ∧
      (handleUndo s).history = s.history) ∧
    (s.historyIndex = 0 → handleUndo s = s) ∧
    (s.historyIndex + 1 < s.history.length →
      (handleRedo s).historyIndex = s.historyIndex + 1 ∧
      (handleRedo s).objects = s.history.getD (s.historyIndex + 1) [] ∧
      (handleRedo s).selectedIds = [] ∧
      (handleRedo s).history = s.history) ∧
    (s.history.length ≤ s.historyIndex + 1 → handleRedo s = s) := by
  refine ⟨fun h => ?_, fun h => ?_, fun h => ?_, fun h => ?_⟩
  · simp [handleUndo, h]
  · simp [handleUndo, h]
  · simp [handleRedo, h]
  · simp [handleRedo, Nat.not_lt.mpr h]

/-- Witness for C5 at a concrete two-snapshot history. -/
theorem c5_witness :
    (handleUndo ⟨[], ["a"], [[], []], 1⟩).historyIndex = 0 ∧
    (handleUndo ⟨[], ["a"], [[], []], 1⟩).selectedIds = [] ∧
    handleRedo ⟨[], ["a"], [[], []], 1⟩ = ⟨[], ["a"], [[], []], 1⟩ := by
  refine ⟨?_, ?_, ?_⟩
  · exact ((c5_undo_redo_history ⟨[], ["a"], [[], []], 1⟩).1 (by norm_num)).1
  · exact ((c5_undo_redo_history ⟨[], ["a"], [[], []], 1⟩).1 (by norm_num)).2.2.1
  · exact (c5_undo_redo_history ⟨[], ["a"], [[], []], 1⟩).2.2.2 (by norm_num)

/-- C2: one erase-circle sample of diameter `d` at point `q`, applied at top
level to a non-group object, appends exactly one normalized mask point
`{(q.x-x)/w, (q.y-y)/h, d/min w h}` to that object's `erasedAreas`, and
changes nothing else of the object. -/
theorem c2_erase_sample (trig : ℚ → ℚ × ℚ) (q : Point) (d : ℚ)
    (oid : String) (ty : ObjType) (t : Transform) (st : Style) (data : ObjData)
    (children : List CanvasObject) (hty : ty ≠ .merged) :
    applyEraserToObject trig [] q d none (.mk oid ty t st data children) =
      .mk oid ty t st
        { data with erasedAreas := data.erasedAreas ++
            [[⟨(q.x - t.x) / t.width, (q.y - t.y) / t.height,
               d / min t.width t.height⟩]] }
        children := by
  rw [applyEraserToObject]
  simp [hty, eraseStroke, leafErasePoint]

/-- Witness for C2: erasing with diameter 20 at the center of a 100×100
object stores one mask point `{1/2, 1/2, 1/5}` — size `20/100 = 0.2`. -/
theorem c2_witness :
    (applyEraserToObject (fun _ => (1, 0)) [] ⟨50, 50⟩ 20 none
        (.mk "r" .rectangle ⟨0, 0, 100, 100, 0⟩
          ⟨"#000000", "#e0e0e0", 2, none⟩
          ⟨none, none, none, none, none, none, []⟩ [])).data.erasedAreas
      = [[⟨1/2, 1/2, 1/5⟩]] := by
  rw [c2_erase_sample (fun _ => (1, 0)) ⟨50, 50⟩ 20 "r" .rectangle ⟨0, 0, 100, 100, 0⟩
    ⟨"#000000", "#e0e0e0", 2, none⟩ ⟨none, none, none, none, none, none, []⟩ [] (by decide)]
  show [[(⟨(50 - 0) / 100, (50 - 0) / 100, 20 / min 100 100⟩ : ErasePoint)]] = _
  norm_num

/-- C8 counterexample: the claim says hit-testing a Drawn object with an
empty path returns false for every point, but at the interior point (50,50)
of an empty-path Drawn object with bounding box 100×100 it returns true
(the bounding-box fallback fires). -/
theorem c8_counterexample :
    isPointInObject (fun _ => (1, 0)) 50 50
      (.mk "d" .drawn ⟨0, 0, 100, 100, 0⟩ ⟨"#000000", "transparent", 5, some 1⟩
        ⟨some [], some .normal, none, none, none, none, []⟩ []) = true := by
  simp only [isPointInObject, CanvasObject.type, CanvasObject.data, CanvasObject.transform,
    pathSegmentsHit, Bool.false_or, decide_eq_true_eq]
  norm_num

/-- C8 amended: for a Drawn object whose stored path is empty, the segment
loop finds nothing and hit-testing degenerates to the unrotated bounding-box
test — it is not constantly false. -/
theorem c8_empty_path_hit (trig : ℚ → ℚ × ℚ) (x y : ℚ) (oid : String) (t : Transform)
    (st : Style) (data : ObjData) (children : List CanvasObject)
    (hp : data.path = some []) :
    isPointInObject trig x y (.mk oid .drawn t st data children) =
      decide (t.x ≤ x ∧ x ≤ t.x + t.width ∧ t.y ≤ y ∧ y ≤ t.y + t.height) := by
  simp only [isPointInObject, CanvasObject.type, CanvasObject.data, CanvasObject.transform, hp]
  simp [pathSegmentsHit]

/-- Witness for C8: a point outside the empty-path object's bounding box is
not hit. -/
theorem c8_witness :
    isPointInObject (fun _ => (1, 0)) 500 500
      (.mk "d" .drawn ⟨0, 0, 100, 100, 0⟩ ⟨"#000000", "transparent", 5, some 1⟩
        ⟨some [], some .normal, none, none, none, none, []⟩ []) = false := by
  rw [c8_empty_path_hit (fun _ => (1, 0)) 500 500 "d" ⟨0, 0, 100, 100, 0⟩
    ⟨"#000000", "transparent", 5, some 1⟩
    ⟨some [], some .normal, none, none, none, none, []⟩ [] rfl]
  simp only [decide_eq_false_iff_not]
  norm_num

/-- C6 counterexample: the claim says every mutation of x/y/width/height,
including `updateObject` property edits, is routed through `clampToCanvas`;
but a property edit requesting `x = 2000` on a 100×100 object stores
`x = 2000` verbatim, while the clamped x would be 1100. -/
theorem c6_counterexample :
    ((handleObjectUpdate
        [.mk "r" .rectangle ⟨0, 0, 100, 100, 0⟩ ⟨"#000000", "#e0e0e0", 2, none⟩
          ⟨none, none, none, none, none, none, []⟩ []]
        ["r"] ⟨some ⟨2000, 0, 100, 100, 0⟩, none⟩).map fun o => o.transform)
      = [⟨2000, 0, 100, 100, 0⟩] ∧
    (constrainToCanvas 2000 0 100 100).1 = 1100 ∧ (2000 : ℚ) ≠ 1100 := by
  refine ⟨?_, by norm_num [constrainToCanvas, CANVAS_WIDTH, CANVAS_HEIGHT], by norm_num⟩
  simp [handleObjectUpdate, applySpread, CanvasObject.id, CanvasObject.type,
    CanvasObject.transform, CanvasObject.style, CanvasObject.data, CanvasObject.children]

/-- C6 amended: drag and resize route position/size through
`constrainToCanvas`, but a `updateObject` transform edit from the UI layer is
applied verbatim — never refused, and never clamped. -/
theorem c6_update_paths (objects : List CanvasObject) (sid : String) (u : ObjUpdate)
    (t' : Transform) (hu : u.transform = some t') (hst : u.style = none) :
    ((handleObjectUpdate objects [sid] u).map fun o => o.transform)
        = objects.map (fun o => if o.id = sid then t' else o.transform) ∧
    (∀ t pos off, (dragStep t pos off).x =
        (constrainToCanvas (pos.x - off.x) (pos.y - off.y) t.width t.height).1 ∧
      (dragStep t pos off).y =
        (constrainToCanvas (pos.x - off.x) (pos.y - off.y) t.width t.height).2.1) ∧
    (∀ t h dx dy,
      (resizeStep t h dx dy).x =
        (constrainToCanvas (rawResize t h dx dy).x (rawResize t h dx dy).y
          (if (rawResize t h dx dy).width < 10 then 10 else (rawResize t h dx dy).width)
          (if (rawResize t h dx dy).height < 10 then 10
            else (rawResize t h dx dy).height)).1) := by
  refine ⟨?_, fun t pos off => ⟨rfl, rfl⟩, fun t h dx dy => rfl⟩
  simp only [handleObjectUpdate, List.length_cons, List.length_nil, zero_add,
    ne_eq, not_true_eq_false, if_false, hst, List.getD_cons_zero, List.map_map]
  refine List.map_congr_left fun o _ => ?_
  by_cases hid : o.id = sid
  · simp [hid, applySpread, CanvasObject.transform, hu]
  · simp [hid]

/-- Witness for C6 at a concrete single-object scene and out-of-canvas edit. -/
theorem c6_witness :
    ((handleObjectUpdate
        [.mk "r" .rectangle ⟨0, 0, 100, 100, 0⟩ ⟨"#000000", "#e0e0e0", 2, none⟩
          ⟨none, none, none, none, none, none, []⟩ []]
        ["r"] ⟨some ⟨2000, 0, 100, 100, 0⟩, none⟩).map fun o => o.transform)
      = [⟨2000, 0, 100, 100, 0⟩] := by
  rw [(c6_update_paths
    [.mk "r" .rectangle ⟨0, 0, 100, 100, 0⟩ ⟨"#000000", "#e0e0e0", 2, none⟩
      ⟨none, none, none, none, none, none, []⟩ []]
    "r" ⟨some ⟨2000, 0, 100, 100, 0⟩, none⟩ ⟨2000, 0, 100, 100, 0⟩ rfl rfl).1]
  simp [CanvasObject.id]

/-- The `constrainToCanvas` output satisfies the min-10/in-canvas invariant
whenever the requested width and height are at least 10. -/
lemma constrainToCanvas_bounds (x y w h : ℚ) (hw : 10 ≤ w) (hh : 10 ≤ h) :
    10 ≤ (constrainToCanvas x y w h).2.2.1 ∧ 10 ≤ (constrainToCanvas x y w h).2.2.2 ∧
    0 ≤ (constrainToCanvas x y w h).1 ∧
    (constrainToCanvas x y w h).1 + (constrainToCanvas x y w h).2.2.1 ≤ CANVAS_WIDTH ∧
    0 ≤ (constrainToCanvas x y w h).2.1 ∧
    (constrainToCanvas x y w h).2.1 + (constrainToCanvas x y w h).2.2.2 ≤ CANVAS_HEIGHT := by
  unfold constrainToCanvas CANVAS_WIDTH CANVAS_HEIGHT
  refine ⟨le_min hw (by norm_num), le_min hh (by norm_num),
    le_max_left 0 _, ?_, le_max_left 0 _, ?_⟩
  · rcases le_total w 1200 with h1 | h1
    · rw [min_eq_left h1]
      have : min x (1200 - w) ≤ 1200 - w := min_le_right _ _
      have : max 0 (min x (1200 - w)) ≤ 1200 - w :=
        max_le (by linarith) this
      linarith
    · rw [min_eq_right h1]
      have h2 : min x (1200 - w) ≤ 1200 - w := min_le_right _ _
      have h3 : max 0 (min x (1200 - w)) = 0 := max_eq_left (by linarith)
      rw [h3]; norm_num
  · rcases le_total h 800 with h1 | h1
    · rw [min_eq_left h1]
      have : min y (800 - h) ≤ 800 - h := min_le_right _ _
      have : max 0 (min y (800 - h)) ≤ 800 - h :=
        max_le (by linarith) this
      linarith
    · rw [min_eq_right h1]
      have h2 : min y (800 - h) ≤ 800 - h := min_le_right _ _
      have h3 : max 0 (min y (800 - h)) = 0 := max_eq_left (by linarith)
      rw [h3]; norm_num

/-- C1 counterexample: the claim asserts `width ≥ 10` after every committed
mutation, but a brush commit over the two-point path (5,5)-(6,5) with stroke
width 1 commits a Drawn object of width `1 + 2·1 = 3 < 10` (its padded bbox
is never clamped); its x-origin 4 is stored as computed. -/
theorem c1_counterexample :
    ∃ o, commitBrush [⟨5, 5⟩, ⟨6, 5⟩] 1 "#000000" .normal 1 "drawn-1" (fun _ => 0)
        = some o ∧
      o.transform.width = 3 ∧ ¬ (10 ≤ o.transform.width) := by
  refine ⟨_, rfl, ?_, ?_⟩ <;>
    simp [commitBrush, brushBBox, CanvasObject.transform] <;> norm_num

/-- C1 amended: the invariant `width,height ≥ 10` and rect ⊆ [0,1200]×[0,800]
holds after every resize step and every shape-draft commit, and is preserved
by every drag step — the mutation paths routed through `constrainToCanvas`.
(Brush commits and `updateObject` property edits bypass the clamp and can
violate it.) -/
theorem c1_clamped_mutations :
    (∀ t h dx dy, transformInv (resizeStep t h dx dy)) ∧
    (∀ s c tr, shapeCommitTransform s c = some tr → transformInv tr) ∧
    (∀ t pos off, transformInv t → transformInv (dragStep t pos off)) := by
  refine ⟨fun t h dx dy => ?_, fun s c tr htr => ?_, fun t pos off hinv => ?_⟩
  · have hw : (10 : ℚ) ≤ (if (rawResize t h dx dy).width < 10 then 10
        else (rawResize t h dx dy).width) := by
      split <;> linarith
    have hh : (10 : ℚ) ≤ (if (rawResize t h dx dy).height < 10 then 10
        else (rawResize t h dx dy).height) := by
      split <;> linarith
    have := constrainToCanvas_bounds (rawResize t h dx dy).x (rawResize t h dx dy).y _ _ hw hh
    exact this
  · simp only [shapeCommitTransform] at htr
    split at htr
    · rename_i hgt
      have hw : (10 : ℚ) ≤ |c.x - s.x| := le_of_lt hgt.1
      have hh : (10 : ℚ) ≤ |c.y - s.y| := le_of_lt hgt.2
      have hb := constrainToCanvas_bounds (min s.x c.x) (min s.y c.y) _ _ hw hh
      cases htr
      exact hb
    · exact absurd htr (by simp)
  · obtain ⟨h1, h2, h3, h4, h5, h6⟩ := hinv
    have hwle : t.width ≤ CANVAS_WIDTH := by unfold CANVAS_WIDTH at *; linarith
    have hhle : t.height ≤ CANVAS_HEIGHT := by unfold CANVAS_HEIGHT at *; linarith
    unfold dragStep constrainToCanvas transformInv CANVAS_WIDTH CANVAS_HEIGHT at *
    refine ⟨h1, h2, le_max_left 0 _, ?_, le_max_left 0 _, ?_⟩
    · have : max 0 (min (pos.x - off.x) (1200 - t.width)) ≤ 1200 - t.width :=
        max_le (by linarith) (min_le_right _ _)
      linarith
    · have : max 0 (min (pos.y - off.y) (800 - t.height)) ≤ 800 - t.height :=
        max_le (by linarith) (min_le_right _ _)
      linarith

/-- Witness for C1 at concrete resize, shape-commit, and drag inputs. -/
theorem c1_witness :
    transformInv (resizeStep ⟨0, 0, 20, 20, 0⟩ .e 5 0) ∧
    (shapeCommitTransform ⟨100, 100⟩ ⟨300, 250⟩ = some ⟨100, 100, 200, 150, 0⟩ ∧
      transformInv (⟨100, 100, 200, 150, 0⟩ : Transform)) ∧
    transformInv (dragStep ⟨0, 0, 20, 20, 0⟩ ⟨10, 10⟩ ⟨5, 5⟩) := by
  have hshape : shapeCommitTransform ⟨100, 100⟩ ⟨300, 250⟩ = some ⟨100, 100, 200, 150, 0⟩ := by
    simp only [shapeCommitTransform, constrainToCanvas, CANVAS_WIDTH, CANVAS_HEIGHT]
    norm_num
  refine ⟨c1_clamped_mutations.1 _ _ _ _, ⟨hshape, c1_clamped_mutations.2.1 _ _ _ hshape⟩, ?_⟩
  refine c1_clamped_mutations.2.2 _ _ _ ?_
  unfold transformInv CANVAS_WIDTH CANVAS_HEIGHT
  norm_num

/-- When the raw resize result already satisfies the min-10/in-canvas
invariant, the minimum-size and canvas clamps are the identity. -/
lemma resizeStep_eq_raw (t : Transform) (h : Handle) (dx dy : ℚ)
    (hinv : transformInv (rawResize t h dx dy)) :
    resizeStep t h dx dy = rawResize t h dx dy := by
  obtain ⟨h1, h2, h3, h4', h5, h6'⟩ := hinv
  have h4 : (rawResize t h dx dy).x + (rawResize t h dx dy).width ≤ 1200 := h4'
  have h6 : (rawResize t h dx dy).y + (rawResize t h dx dy).height ≤ 800 := h6'
  unfold resizeStep constrainToCanvas CANVAS_WIDTH CANVAS_HEIGHT
  set t1 := rawResize t h dx dy with ht1
  have e1 : (if t1.width < 10 then (10 : ℚ) else t1.width) = t1.width :=
    if_neg (by linarith)
  have e2 : (if t1.height < 10 then (10 : ℚ) else t1.height) = t1.height :=
    if_neg (by linarith)
  simp only [e1, e2]
  have e3 : max 0 (min t1.x (1200 - t1.width)) = t1.x := by
    rw [min_eq_left (by linarith), max_eq_right h3]
  have e4 : max 0 (min t1.y (800 - t1.height)) = t1.y := by
    rw [min_eq_left (by linarith), max_eq_right h5]
  have e5 : min t1.width 1200 = t1.width := min_eq_left (by linarith)
  have e6 : min t1.height 800 = t1.height := min_eq_left (by linarith)
  simp only [e3, e4, e5, e6]

/-- The raw edge adjustment is exactly undone by the inverse pointer delta. -/
lemma rawResize_inverse (t : Transform) (h : Handle) (dx dy : ℚ) :
    rawResize (rawResize t h dx dy) h (-dx) (-dy) = t := by
  cases t
  cases h <;>
    simp [rawResize, Handle.hasN, Handle.hasS, Handle.hasW, Handle.hasE,
      Transform.mk.injEq]

/-- Path rescaling about the old origin is undone by rescaling back, as long
as no dimension is zero. -/
lemma resizePath_inverse (told tnew : Transform) (path : List Point)
    (hw : told.width ≠ 0) (hh : told.height ≠ 0)
    (hw1 : tnew.width ≠ 0) (hh1 : tnew.height ≠ 0) :
    resizePath tnew told (resizePath told tnew path) = path := by
  unfold resizePath
  rw [List.map_map]
  conv_rhs => rw [← List.map_id path]
  refine List.map_congr_left fun p _ => ?_
  cases p with
  | mk px py =>
    simp only [Function.comp_apply, id_eq, Point.mk.injEq]
    constructor <;> field_simp <;> ring

/-- C7 counterexample: resizing a 20×20 object at (0,0) by handle `e` with
delta (-15,0) hits the minimum-size clamp (width 5 → 10); repeating with the
inverse delta (15,0) yields width 25 ≠ 20, so the round trip does not restore
the original transform. -/
theorem c7_counterexample :
    resizeStep (resizeStep ⟨0, 0, 20, 20, 0⟩ .e (-15) 0) .e 15 0 ≠ ⟨0, 0, 20, 20, 0⟩ := by
  simp only [resizeStep, rawResize, Handle.hasN, Handle.hasS, Handle.hasW, Handle.hasE,
    constrainToCanvas, CANVAS_WIDTH, CANVAS_HEIGHT, if_false, Bool.false_eq_true]
  norm_num

/-- C7 amended: a resize followed by the exact inverse delta on the same
handle restores the original transform and, for Drawn objects, the original
path — provided neither step triggers the minimum-size or canvas clamps,
i.e. both the original transform and the displaced one satisfy the
min-10/in-canvas invariant. -/
theorem c7_resize_roundtrip (t : Transform) (h : Handle) (dx dy : ℚ) (path : List Point)
    (hinv : transformInv t) (hinv1 : transformInv (rawResize t h dx dy)) :
    resizeStep (resizeStep t h dx dy) h (-dx) (-dy) = t ∧
    resizePath (resizeStep t h dx dy) t (resizePath t (resizeStep t h dx dy) path) = path := by
  have e1 : resizeStep t h dx dy = rawResize t h dx dy := resizeStep_eq_raw _ _ _ _ hinv1
  have e2 : rawResize (rawResize t h dx dy) h (-dx) (-dy) = t := rawResize_inverse t h dx dy
  have e3 : resizeStep (rawResize t h dx dy) h (-dx) (-dy)
      = rawResize (rawResize t h dx dy) h (-dx) (-dy) :=
    resizeStep_eq_raw _ _ _ _ (by rw [e2]; exact hinv)
  refine ⟨by rw [e1, e3, e2], ?_⟩
  rw [e1]
  exact resizePath_inverse t (rawResize t h dx dy) path
    (by have := hinv.1; intro hz; rw [hz] at this; norm_num at this)
    (by have := hinv.2.1; intro hz; rw [hz] at this; norm_num at this)
    (by have := hinv1.1; intro hz; rw [hz] at this; norm_num at this)
    (by have := hinv1.2.1; intro hz; rw [hz] at this; norm_num at this)

/-- Witness for C7: a clamp-free resize round trip at concrete inputs. -/
theorem c7_witness :
    resizeStep (resizeStep ⟨100, 100, 50, 50, 0⟩ .e 5 0) .e (-5) 0 = ⟨100, 100, 50, 50, 0⟩ ∧
    resizePath (resizeStep ⟨100, 100, 50, 50, 0⟩ .e 5 0) ⟨100, 100, 50, 50, 0⟩
        (resizePath ⟨100, 100, 50, 50, 0⟩ (resizeStep ⟨100, 100, 50, 50, 0⟩ .e 5 0)
          [⟨120, 120⟩]) = [⟨120, 120⟩] := by
  have h1 : transformInv (⟨100, 100, 50, 50, 0⟩ : Transform) := by
    unfold transformInv CANVAS_WIDTH CANVAS_HEIGHT; norm_num
  have h2 : transformInv (rawResize ⟨100, 100, 50, 50, 0⟩ .e 5 0) := by
    unfold transformInv rawResize Handle.hasN Handle.hasS Handle.hasW Handle.hasE
      CANVAS_WIDTH CANVAS_HEIGHT
    norm_num
  have hc := c7_resize_roundtrip ⟨100, 100, 50, 50, 0⟩ .e 5 0 [⟨120, 120⟩] h1 h2
  have hneg : (-(5 : ℚ)) = -5 := rfl
  refine ⟨?_, ?_⟩
  · have := hc.1
    rwa [show (-(5:ℚ)) = -5 from rfl, show (-(0:ℚ)) = 0 from neg_zero] at this
  · exact hc.2

lemma foldl_min_le_init (l : List ℚ) (a : ℚ) : l.foldl min a ≤ a := by
  induction l generalizing a with
  | nil => simp
  | cons x xs ih => exact le_trans (ih (min a x)) (min_le_left a x)

lemma foldl_min_le_mem (l : List ℚ) (a x : ℚ) (hx : x ∈ l) : l.foldl min a ≤ x := by
  induction l generalizing a with
  | nil => cases hx
  | cons y ys ih =>
    rcases List.mem_cons.mp hx with h | h
    · subst h
      exact le_trans (foldl_min_le_init ys (min a x)) (min_le_right a x)
    · exact ih (min a y) h

lemma foldl_min_attained (l : List ℚ) (a : ℚ) : l.foldl min a = a ∨ l.foldl min a ∈ l := by
  induction l generalizing a with
  | nil => left; rfl
  | cons x xs ih =>
    rcases ih (min a x) with h | h
    · rcases min_choice a x with hm | hm
      · left; rw [List.foldl_cons, h, hm]
      · right; rw [List.foldl_cons, h, hm]; exact List.mem_cons_self x xs
    · right; exact List.mem_cons_of_mem x h

lemma foldl_max_le_init (l : List ℚ) (a : ℚ) : a ≤ l.foldl max a := by
  induction l generalizing a with
  | nil => simp
  | cons x xs ih => exact le_trans (le_max_left a x) (ih (max a x))

lemma foldl_max_le_mem (l : List ℚ) (a x : ℚ) (hx : x ∈ l) : x ≤ l.foldl max a := by
  induction l generalizing a with
  | nil => cases hx
  | cons y ys ih =>
    rcases List.mem_cons.mp hx with h | h
    · subst h
      exact le_trans (le_max_right a x) (foldl_max_le_init ys (max a x))
    · exact ih (max a y) h

lemma foldl_max_attained (l : List ℚ) (a : ℚ) : l.foldl max a = a ∨ l.foldl max a ∈ l := by
  induction l generalizing a with
  | nil => left; rfl
  | cons x xs ih =>
    rcases ih (max a x) with h | h
    · rcases max_choice a x with hm | hm
      · left; rw [List.foldl_cons, h, hm]
      · right; rw [List.foldl_cons, h, hm]; exact List.mem_cons_self x xs
    · right; exact List.mem_cons_of_mem x h

/-- The quadruple bbox fold of `handleMerge` computes the four componentwise
folds. -/
lemma quadFold (l : List CanvasObject) :
    ∀ a b c d : ℚ,
      l.foldl (fun acc obj =>
        let t := obj.transform
        (min acc.1 t.x, min acc.2.1 t.y, max acc.2.2.1 (t.x + t.width),
         max acc.2.2.2 (t.y + t.height))) (a, b, c, d) =
      ((l.map fun r => r.transform.x).foldl min a,
       (l.map fun r => r.transform.y).foldl min b,
       (l.map fun r => r.transform.x + r.transform.width).foldl max c,
       (l.map fun r => r.transform.y + r.transform.height).foldl max d) := by
  induction l with
  | nil => intro a b c d; rfl
  | cons o rest ih =>
    intro a b c d
    simp only [List.foldl_cons, List.map_cons]
    exact ih _ _ _ _

/-- C4: merging ≥ 2 selected objects produces exactly the remaining objects
plus one Group whose transform is the union AABB with clamped origin and
rotation 0, whose `originalWidth/Height` record the bbox size, and whose
children are the selected objects shifted by minus the clamped origin; the
group becomes the sole selection.  The bbox is the true union bounding box:
it contains every selected AABB and attains each of its four sides. -/
theorem c4_merge (objects : List CanvasObject) (selectedIds : List String) (newId : String)
    (h2 : 2 ≤ selectedIds.length)
    (hne : objects.filter (fun o => selectedIds.contains o.id) ≠ []) :
    let selected := objects.filter fun o => selectedIds.contains o.id
    let b := mergeBBox selected
    let cX := max 0 (min b.1 (1200 - (b.2.2.1 - b.1)))
    let cY := max 0 (min b.2.1 (800 - (b.2.2.2 - b.2.1)))
    handleMerge objects selectedIds newId =
      (objects.filter (fun o => !(selectedIds.contains o.id)) ++
        [.mk newId .merged
          ⟨cX, cY, b.2.2.1 - b.1, b.2.2.2 - b.2.1, 0⟩
          ⟨"#000000", "transparent", 2, none⟩
          ⟨none, none, none, none, some (b.2.2.1 - b.1), some (b.2.2.2 - b.2.1), []⟩
          (selected.map (shiftChild cX cY))],
       [newId]) ∧
    (∀ o ∈ selected,
      b.1 ≤ o.transform.x ∧ o.transform.x + o.transform.width ≤ b.2.2.1 ∧
      b.2.1 ≤ o.transform.y ∧ o.transform.y + o.transform.height ≤ b.2.2.2) ∧
    (∃ o ∈ selected, o.transform.x = b.1) ∧
    (∃ o ∈ selected, o.transform.y = b.2.1) ∧
    (∃ o ∈ selected, o.transform.x + o.transform.width = b.2.2.1) ∧
    (∃ o ∈ selected, o.transform.y + o.transform.height = b.2.2.2) := by
  intro selected b cX cY
  obtain ⟨s, rest, hsel⟩ : ∃ s rest, selected = s :: rest := by
    cases hs : selected with
    | nil => exact absurd hs hne
    | cons s rest => exact ⟨s, rest, rfl⟩
  have hb : b = ((rest.map fun r => r.transform.x).foldl min s.transform.x,
      (rest.map fun r => r.transform.y).foldl min s.transform.y,
      (rest.map fun r => r.transform.x + r.transform.width).foldl max
        (s.transform.x + s.transform.width),
      (rest.map fun r => r.transform.y + r.transform.height).foldl max
        (s.transform.y + s.transform.height)) := by
    show mergeBBox selected = _
    rw [hsel]
    unfold mergeBBox
    exact quadFold rest _ _ _ _
  refine ⟨?_, ?_, ?_, ?_, ?_, ?_⟩
  · show handleMerge objects selectedIds newId = _
    unfold handleMerge
    rw [if_neg (Nat.not_lt.mpr h2)]
  · intro o ho
    rw [hsel] at ho
    rw [hb]
    rcases List.mem_cons.mp ho with h | h
    · subst h
      exact ⟨foldl_min_le_init _ _, foldl_max_le_init _ _,
        foldl_min_le_init _ _, foldl_max_le_init _ _⟩
    · exact ⟨foldl_min_le_mem _ _ _ (List.mem_map_of_mem _ h),
        foldl_max_le_mem _ _ _ (List.mem_map_of_mem _ h),
        foldl_min_le_mem _ _ _ (List.mem_map_of_mem _ h),
        foldl_max_le_mem _ _ _ (List.mem_map_of_mem _ h)⟩
  · rw [hb]
    rcases foldl_min_attained (rest.map fun r => r.transform.x) s.transform.x with h | h
    · exact ⟨s, by rw [hsel]; exact List.mem_cons_self s rest, h.symm⟩
    · obtain ⟨r, hr, hrx⟩ := List.mem_map.mp h
      exact ⟨r, by rw [hsel]; exact List.mem_cons_of_mem s hr, hrx⟩
  · rw [hb]
    rcases foldl_min_attained (rest.map fun r => r.transform.y) s.transform.y with h | h
    · exact ⟨s, by rw [hsel]; exact List.mem_cons_self s rest, h.symm⟩
    · obtain ⟨r, hr, hry⟩ := List.mem_map.mp h
      exact ⟨r, by rw [hsel]; exact List.mem_cons_of_mem s hr, hry⟩
  · rw [hb]
    rcases foldl_max_attained (rest.map fun r => r.transform.x + r.transform.width)
        (s.transform.x + s.transform.width) with h | h
    · exact ⟨s, by rw [hsel]; exact List.mem_cons_self s rest, h.symm⟩
    · obtain ⟨r, hr, hrx⟩ := List.mem_map.mp h
      exact ⟨r, by rw [hsel]; exact List.mem_cons_of_mem s hr, hrx⟩
  · rw [hb]
    rcases foldl_max_attained (rest.map fun r => r.transform.y + r.transform.height)
        (s.transform.y + s.transform.height) with h | h
    · exact ⟨s, by rw [hsel]; exact List.mem_cons_self s rest, h.symm⟩
    · obtain ⟨r, hr, hry⟩ := List.mem_map.mp h
      exact ⟨r, by rw [hsel]; exact List.mem_cons_of_mem s hr, hry⟩

/-- Witness for C4: merging AABBs (0,0,50,50) and (100,100,50,50) yields a
Group with transform {0,0,150,150,rot 0}, children at local {0,0,50,50} and
{100,100,50,50}, and selection = the new group id. -/
theorem c4_witness :
    ((handleMerge
        [.mk "a" .rectangle ⟨0, 0, 50, 50, 0⟩ ⟨"#000000", "#e0e0e0", 2, none⟩
          ⟨none, none, none, none, none, none, []⟩ [],
         .mk "b" .rectangle ⟨100, 100, 50, 50, 0⟩ ⟨"#000000", "#e0e0e0", 2, none⟩
          ⟨none, none, none, none, none, none, []⟩ []]
        ["a", "b"] "m").1.map fun o => o.transform) = [⟨0, 0, 150, 150, 0⟩] ∧
    ((handleMerge
        [.mk "a" .rectangle ⟨0, 0, 50, 50, 0⟩ ⟨"#000000", "#e0e0e0", 2, none⟩
          ⟨none, none, none, none, none, none, []⟩ [],
         .mk "b" .rectangle ⟨100, 100, 50, 50, 0⟩ ⟨"#000000", "#e0e0e0", 2, none⟩
          ⟨none, none, none, none, none, none, []⟩ []]
        ["a", "b"] "m").1.map fun o => o.children.map fun c => c.transform)
      = [[⟨0, 0, 50, 50, 0⟩, ⟨100, 100, 50, 50, 0⟩]] ∧
    (handleMerge
        [.mk "a" .rectangle ⟨0, 0, 50, 50, 0⟩ ⟨"#000000", "#e0e0e0", 2, none⟩
          ⟨none, none, none, none, none, none, []⟩ [],
         .mk "b" .rectangle ⟨100, 100, 50, 50, 0⟩ ⟨"#000000", "#e0e0e0", 2, none⟩
          ⟨none, none, none, none, none, none, []⟩ []]
        ["a", "b"] "m").2 = ["m"] := by
  have h := (c4_merge
    [.mk "a" .rectangle ⟨0, 0, 50, 50, 0⟩ ⟨"#000000", "#e0e0e0", 2, none⟩
      ⟨none, none, none, none, none, none, []⟩ [],
     .mk "b" .rectangle ⟨100, 100, 50, 50, 0⟩ ⟨"#000000", "#e0e0e0", 2, none⟩
      ⟨none, none, none, none, none, none, []⟩ []]
    ["a", "b"] "m" (by norm_num)
    (by simp [List.filter, CanvasObject.id])).1
  rw [h]
  have hfilter :
      (([.mk "a" .rectangle ⟨0, 0, 50, 50, 0⟩ ⟨"#000000", "#e0e0e0", 2, none⟩
          ⟨none, none, none, none, none, none, []⟩ [],
        .mk "b" .rectangle ⟨100, 100, 50, 50, 0⟩ ⟨"#000000", "#e0e0e0", 2, none⟩
          ⟨none, none, none, none, none, none, []⟩ []] : List CanvasObject).filter
        fun o => (["a", "b"] : List String).contains o.id) =
      [.mk "a" .rectangle ⟨0, 0, 50, 50, 0⟩ ⟨"#000000", "#e0e0e0", 2, none⟩
        ⟨none, none, none, none, none, none, []⟩ [],
       .mk "b" .rectangle ⟨100, 100, 50, 50, 0⟩ ⟨"#000000", "#e0e0e0", 2, none⟩
        ⟨none, none, none, none, none, none, []⟩ []] := by
    simp [List.filter, CanvasObject.id]
  have hbbox : mergeBBox
      [.mk "a" .rectangle ⟨0, 0, 50, 50, 0⟩ ⟨"#000000", "#e0e0e0", 2, none⟩
        ⟨none, none, none, none, none, none, []⟩ [],
       .mk "b" .rectangle ⟨100, 100, 50, 50, 0⟩ ⟨"#000000", "#e0e0e0", 2, none⟩
        ⟨none, none, none, none, none, none, []⟩ []] = (0, 0, 150, 150) := by
    unfold mergeBBox
    simp only [List.foldl_cons, List.foldl_nil, CanvasObject.transform]
    norm_num
  rw [hfilter, hbbox] at *
  norm_num [List.filter, CanvasObject.id, CanvasObject.children, CanvasObject.transform,
    shiftChild, CanvasObject.data]

/-- C10: the eraser mutates nothing but erase data.  A non-group object keeps
its id, type, transform, style, children, and every data field except
`erasedAreas`, which gains exactly one stroke.  A merged object keeps its own
id, type, transform, style, and data, and every child whose local bounding
box does not contain the re-projected eraser position is returned unchanged. -/
theorem c10_eraser_frame (trig : ℚ → ℚ × ℚ) (path : List Point) (pos : Point) (d : ℚ)
    (parent : Option ParentT) (oid : String) (ty : ObjType) (t : Transform) (st : Style)
    (data : ObjData) (children : List CanvasObject) :
    (ty ≠ .merged →
      applyEraserToObject trig path pos d parent (.mk oid ty t st data children) =
        .mk oid ty t st
          { data with erasedAreas := data.erasedAreas ++
              [eraseStroke trig path pos d parent t] }
          children) ∧
    (ty = .merged →
      ∃ newChildren : List CanvasObject,
        applyEraserToObject trig path pos d parent (.mk oid ty t st data children) =
          .mk oid ty t st data newChildren ∧
        newChildren.length = children.length ∧
        ∀ (i : ℕ) (hi : i < children.length),
          ¬ groupHitChild trig pos
              (composeAbs parent t (data.originalWidth.getD t.width)
                (data.originalHeight.getD t.height))
              t (data.originalWidth.getD t.width) (data.originalHeight.getD t.height)
              (children.get ⟨i, hi⟩) →
          newChildren[i]? = some (children.get ⟨i, hi⟩)) := by
  constructor
  · intro hty
    rw [applyEraserToObject]
    simp [hty]
  · intro hty
    subst hty
    rw [applyEraserToObject]
    simp only [if_pos rfl, reduceIte]
    refine ⟨_, rfl, by simp, ?_⟩
    intro i hi hnot
    have hlen : i < (children.attach.map fun c =>
        if groupHitChild trig pos
            (composeAbs parent t (data.originalWidth.getD t.width)
              (data.originalHeight.getD t.height))
            t (data.originalWidth.getD t.width) (data.originalHeight.getD t.height) c.1
        then applyEraserToObject trig path pos d
            (some (composeAbs parent t (data.originalWidth.getD t.width)
              (data.originalHeight.getD t.height))) c.1
        else c.1).length := by
      simpa using hi
    rw [List.getElem?_eq_getElem hlen, List.getElem_map, List.getElem_attach]
    simp only [List.get_eq_getElem] at hnot ⊢
    rw [if_neg hnot]

/-- Witness for C10: a single concrete erase on a non-group object preserves
style and path, and on a merged object leaves a missed child untouched. -/
theorem c10_witness :
    applyEraserToObject (fun _ => (1, 0)) [] ⟨5, 5⟩ 10 none
      (.mk "d" .drawn ⟨0, 0, 20, 20, 0⟩ ⟨"#111111", "transparent", 3, some 1⟩
        ⟨some [⟨1, 1⟩], some .normal, none, none, none, none, []⟩ []) =
      .mk "d" .drawn ⟨0, 0, 20, 20, 0⟩ ⟨"#111111", "transparent", 3, some 1⟩
        ⟨some [⟨1, 1⟩], some .normal, none, none, none, none,
          [eraseStroke (fun _ => (1, 0)) [] ⟨5, 5⟩ 10 none ⟨0, 0, 20, 20, 0⟩]⟩ [] ∧
    (applyEraserToObject (fun _ => (1, 0)) [] ⟨50, 50⟩ 10 none
        (.mk "g" .merged ⟨0, 0, 100, 100, 0⟩ ⟨"#000000", "transparent", 2, none⟩
          ⟨none, none, none, none, some 100, some 100, []⟩
          [.mk "c" .rectangle ⟨0, 0, 10, 10, 0⟩ ⟨"#000000", "#e0e0e0", 2, none⟩
            ⟨none, none, none, none, none, none, []⟩ []])).children[0]?
      = some (.mk "c" .rectangle ⟨0, 0, 10, 10, 0⟩ ⟨"#000000", "#e0e0e0", 2, none⟩
          ⟨none, none, none, none, none, none, []⟩ []) := by
  constructor
  · exact (c10_eraser_frame (fun _ => (1, 0)) [] ⟨5, 5⟩ 10 none "d" .drawn
      ⟨0, 0, 20, 20, 0⟩ ⟨"#111111", "transparent", 3, some 1⟩
      ⟨some [⟨1, 1⟩], some .normal, none, none, none, none, []⟩ []).1 (by simp)
  · obtain ⟨nc, heq, hlen, helem⟩ := (c10_eraser_frame (fun _ => (1, 0)) [] ⟨50, 50⟩ 10 none
      "g" .merged ⟨0, 0, 100, 100, 0⟩ ⟨"#000000", "transparent", 2, none⟩
      ⟨none, none, none, none, some 100, some 100, []⟩
      [.mk "c" .rectangle ⟨0, 0, 10, 10, 0⟩ ⟨"#000000", "#e0e0e0", 2, none⟩
        ⟨none, none, none, none, none, none, []⟩ []]).2 rfl
    rw [heq]
    simp only [CanvasObject.children]
    refine helem 0 (by norm_num) ?_
    unfold groupHitChild groupLocalPoint composeAbs
    simp only [Option.getD_some, List.get_eq_getElem]
    norm_num [CanvasObject.transform]

lemma composeChain_some (chain : List GroupSpec) :
    ∀ p : ParentT, composeChain (some p) chain = some (composeChainP p chain) := by
  induction chain with
  | nil => intro p; rfl
  | cons g rest ih => intro p; exact ih _

lemma composeChainP_scaleX (chain : List GroupSpec) :
    ∀ p : ParentT, (composeChainP p chain).scaleX = p.scaleX * chainScaleX chain := by
  induction chain with
  | nil => intro p; simp [composeChainP, chainScaleX]
  | cons g rest ih =>
    intro p
    rw [composeChainP, ih]
    show (composeAbs (some p) g.t g.ow g.oh).scaleX * chainScaleX rest = _
    rw [show (composeAbs (some p) g.t g.ow g.oh).scaleX
        = p.scaleX * (g.t.width / g.ow) from rfl]
    unfold chainScaleX
    rw [List.map_cons, List.prod_cons]
    ring

lemma descend_nest (chain : List GroupSpec) (x : CanvasObject) :
    descend (nestGroups chain x) chain.length = x := by
  induction chain with
  | nil => rfl
  | cons g rest ih =>
    show descend (mkGroup g (nestGroups rest x)) (rest.length + 1) = x
    rw [descend]
    simp only [mkGroup, CanvasObject.children, List.headD_cons]
    exact ih

/-- When the eraser sample recursively reaches the leaf of a straight-line
nest, applying the eraser to the nest rewrites exactly the leaf, with the
parent transform composed along the whole chain. -/
lemma eraser_nest (trig : ℚ → ℚ × ℚ) (path : List Point) (pos : Point) (d : ℚ)
    (chain : List GroupSpec) :
    ∀ (p : Option ParentT) (leaf : CanvasObject),
      eraserReachesB trig pos p chain leaf = true →
      applyEraserToObject trig path pos d p (nestGroups chain leaf) =
        nestGroups chain
          (applyEraserToObject trig path pos d (composeChain p chain) leaf) := by
  induction chain with
  | nil => intro p leaf _; rfl
  | cons g rest ih =>
    intro p leaf hreach
    simp only [eraserReachesB, Bool.and_eq_true, decide_eq_true_eq] at hreach
    obtain ⟨hhit, hrest⟩ := hreach
    show applyEraserToObject trig path pos d p (mkGroup g (nestGroups rest leaf)) = _
    simp only [mkGroup]
    rw [applyEraserToObject]
    simp only [if_pos rfl, reduceIte, Option.getD_some, List.attach_cons, List.attach_nil,
      List.map_nil, List.map_cons, if_pos hhit]
    rw [ih (some (composeAbs p g.t g.ow g.oh)) leaf hrest]
    rfl

/-- Every point of the stroke a leaf stores under a parent frame carries the
size `d / min(w,h) / parentScaleX`. -/
lemma eraseStroke_size (trig : ℚ → ℚ × ℚ) (path : List Point) (pos : Point) (d : ℚ)
    (p : ParentT) (t : Transform) :
    ∀ pt ∈ eraseStroke trig path pos d (some p) t,
      pt.size = d / min t.width t.height / p.scaleX := by
  intro pt hpt
  unfold eraseStroke at hpt
  rcases List.mem_append.mp hpt with h | h
  · obtain ⟨q, _, hq⟩ := List.mem_map.mp h
    rw [← hq]; rfl
  · rw [List.mem_singleton.mp h]; rfl

/-- C3: for a leaf nested in groups to any depth, every point of the stroke
an erase sample stores carries normalized size = eraser diameter divided by
`min(leafWidth, leafHeight)` and further by the composed ancestor scale
chain, which is exactly the product of each ancestor group's
`width / originalWidth`. -/
theorem c3_scale_chain (trig : ℚ → ℚ × ℚ) (path : List Point) (pos : Point) (d : ℚ)
    (chain : List GroupSpec) (leaf : CanvasObject)
    (hne : chain ≠ []) (hty : leaf.type ≠ .merged)
    (hreach : eraserReachesB trig pos none chain leaf = true) :
    (descend (applyEraserToObject trig path pos d none (nestGroups chain leaf))
        chain.length).data.erasedAreas.length
      = leaf.data.erasedAreas.length + 1 ∧
    ∀ pt ∈ (descend (applyEraserToObject trig path pos d none (nestGroups chain leaf))
        chain.length).data.erasedAreas.getLastD [],
      pt.size = d / min leaf.transform.width leaf.transform.height / chainScaleX chain := by
  obtain ⟨g, rest, rfl⟩ : ∃ g rest, chain = g :: rest := by
    cases chain with
    | nil => exact absurd rfl hne
    | cons g rest => exact ⟨g, rest, rfl⟩
  have hq : composeChain none (g :: rest)
      = some (composeChainP (composeAbs none g.t g.ow g.oh) rest) := by
    rw [composeChain]
    exact composeChain_some rest _
  have hscale : (composeChainP (composeAbs none g.t g.ow g.oh) rest).scaleX
      = chainScaleX (g :: rest) := by
    rw [composeChainP_scaleX]
    rw [show (composeAbs none g.t g.ow g.oh).scaleX = g.t.width / g.ow from rfl]
    unfold chainScaleX
    rw [List.map_cons, List.prod_cons]
  rw [eraser_nest trig path pos d (g :: rest) none leaf hreach, descend_nest, hq]
  obtain ⟨lid, lty, lt, lst, ldata, lch⟩ := leaf
  have hlty : lty ≠ .merged := by simpa [CanvasObject.type] using hty
  rw [applyEraserToObject]
  simp only [if_neg hlty, CanvasObject.data, CanvasObject.transform]
  constructor
  · simp
  · simp only [List.getLastD_concat]
    intro pt hpt
    rw [eraseStroke_size trig path pos d _ lt pt hpt, hscale]

/-- Witness for C3 at a depth-1 nest: group 200×100 with original size
100×50 (x-scale 2), leaf 40×20, eraser diameter 20 at the group's center —
the stored stroke has one point and its size is `20 / 20 / 2 = 1/2`. -/
theorem c3_witness :
    (descend (applyEraserToObject (fun _ => (1, 0)) [] ⟨100, 50⟩ 20 none
        (nestGroups [⟨"g", ⟨0, 0, 200, 100, 0⟩, 100, 50⟩]
          (.mk "c" .rectangle ⟨10, 10, 40, 20, 0⟩ ⟨"#000000", "#e0e0e0", 2, none⟩
            ⟨none, none, none, none, none, none, []⟩ []))) 1).data.erasedAreas.length
      = 1 ∧
    (((descend (applyEraserToObject (fun _ => (1, 0)) [] ⟨100, 50⟩ 20 none
        (nestGroups [⟨"g", ⟨0, 0, 200, 100, 0⟩, 100, 50⟩]
          (.mk "c" .rectangle ⟨10, 10, 40, 20, 0⟩ ⟨"#000000", "#e0e0e0", 2, none⟩
            ⟨none, none, none, none, none, none, []⟩ []))) 1).data.erasedAreas.getLastD
        []).headD ⟨0, 0, 0⟩).size = 1 / 2 := by
  have hreach : eraserReachesB (fun _ => (1, 0)) ⟨100, 50⟩ none
      [⟨"g", ⟨0, 0, 200, 100, 0⟩, 100, 50⟩]
      (.mk "c" .rectangle ⟨10, 10, 40, 20, 0⟩ ⟨"#000000", "#e0e0e0", 2, none⟩
        ⟨none, none, none, none, none, none, []⟩ []) = true := by
    simp only [eraserReachesB, nestGroups, Bool.and_eq_true, decide_eq_true_eq]
    refine ⟨?_, trivial⟩
    unfold groupHitChild groupLocalPoint composeAbs
    norm_num [CanvasObject.transform]
  -- the theorem applied at this nest, discharging every hypothesis
  have hmain := c3_scale_chain (fun _ => (1, 0)) [] ⟨100, 50⟩ 20
    [⟨"g", ⟨0, 0, 200, 100, 0⟩, 100, 50⟩]
    (.mk "c" .rectangle ⟨10, 10, 40, 20, 0⟩ ⟨"#000000", "#e0e0e0", 2, none⟩
      ⟨none, none, none, none, none, none, []⟩ [])
    (by simp) (by simp [CanvasObject.type]) hreach
  -- explicit evaluation of the erased nest
  have hres : applyEraserToObject (fun _ => (1, 0)) [] ⟨100, 50⟩ 20 none
      (nestGroups [⟨"g", ⟨0, 0, 200, 100, 0⟩, 100, 50⟩]
        (.mk "c" .rectangle ⟨10, 10, 40, 20, 0⟩ ⟨"#000000", "#e0e0e0", 2, none⟩
          ⟨none, none, none, none, none, none, []⟩ []))
      = nestGroups [⟨"g", ⟨0, 0, 200, 100, 0⟩, 100, 50⟩]
          (applyEraserToObject (fun _ => (1, 0)) [] ⟨100, 50⟩ 20
            (composeChain none [⟨"g", ⟨0, 0, 200, 100, 0⟩, 100, 50⟩])
            (.mk "c" .rectangle ⟨10, 10, 40, 20, 0⟩ ⟨"#000000", "#e0e0e0", 2, none⟩
              ⟨none, none, none, none, none, none, []⟩ [])) :=
    eraser_nest (fun _ => (1, 0)) [] ⟨100, 50⟩ 20 _ none _ hreach
  have hleaf : applyEraserToObject (fun _ => (1, 0)) [] ⟨100, 50⟩ 20
      (composeChain none [⟨"g", ⟨0, 0, 200, 100, 0⟩, 100, 50⟩])
      (.mk "c" .rectangle ⟨10, 10, 40, 20, 0⟩ ⟨"#000000", "#e0e0e0", 2, none⟩
        ⟨none, none, none, none, none, none, []⟩ [])
      = .mk "c" .rectangle ⟨10, 10, 40, 20, 0⟩ ⟨"#000000", "#e0e0e0", 2, none⟩
          ⟨none, none, none, none, none, none,
            [eraseStroke (fun _ => (1, 0)) [] ⟨100, 50⟩ 20
              (composeChain none [⟨"g", ⟨0, 0, 200, 100, 0⟩, 100, 50⟩])
              ⟨10, 10, 40, 20, 0⟩]⟩ [] := by
    rw [applyEraserToObject]
    rw [if_neg (by decide)]
    exact rfl
  have hd : descend (applyEraserToObject (fun _ => (1, 0)) [] ⟨100, 50⟩ 20 none
      (nestGroups [⟨"g", ⟨0, 0, 200, 100, 0⟩, 100, 50⟩]
        (.mk "c" .rectangle ⟨10, 10, 40, 20, 0⟩ ⟨"#000000", "#e0e0e0", 2, none⟩
          ⟨none, none, none, none, none, none, []⟩ []))) 1
      = .mk "c" .rectangle ⟨10, 10, 40, 20, 0⟩ ⟨"#000000", "#e0e0e0", 2, none⟩
          ⟨none, none, none, none, none, none,
            [eraseStroke (fun _ => (1, 0)) [] ⟨100, 50⟩ 20
              (composeChain none [⟨"g", ⟨0, 0, 200, 100, 0⟩, 100, 50⟩])
              ⟨10, 10, 40, 20, 0⟩]⟩ [] := by
    rw [hres, hleaf]
    exact descend_nest [⟨"g", ⟨0, 0, 200, 100, 0⟩, 100, 50⟩] _
  constructor
  · exact hmain.1
  · rw [hd]
    rw [show eraseStroke (fun _ => (1, 0)) [] ⟨100, 50⟩ 20
        (composeChain none [⟨"g", ⟨0, 0, 200, 100, 0⟩, 100, 50⟩]) ⟨10, 10, 40, 20, 0⟩
      = [leafErasePoint (fun _ => (1, 0)) 20
          (composeChain none [⟨"g", ⟨0, 0, 200, 100, 0⟩, 100, 50⟩]) ⟨10, 10, 40, 20, 0⟩
          ⟨100, 50⟩] from rfl]
    show (leafErasePoint (fun _ => (1, 0)) 20
        (composeChain none [⟨"g", ⟨0, 0, 200, 100, 0⟩, 100, 50⟩]) ⟨10, 10, 40, 20, 0⟩
        ⟨100, 50⟩).size = 1 / 2
    rw [show composeChain none [⟨"g", ⟨0, 0, 200, 100, 0⟩, 100, 50⟩]
      = some (composeAbs none ⟨0, 0, 200, 100, 0⟩ 100 50) from rfl]
    unfold leafErasePoint composeAbs
    norm_num

/-- Each generated spray particle jitters around a segment-interpolated
point by at most `(3/4)·strokeWidth ≤ (3/2)·strokeWidth` per axis, has size
in `[1, strokeWidth/3 + 1]` and alpha in `[3/10, 4/5]`, for every possible
draw of the random stream. -/
lemma sprayAux_bounds (sw ox oy : ℚ) (rnd : ℕ → ℚ)
    (hr : ∀ i, 0 ≤ rnd i ∧ rnd i < 1) (hsw : 0 ≤ sw) :
    ∀ (l : List Point) (c : ℕ), ∀ prt ∈ sprayAux sw ox oy rnd l c,
      (∃ ctr : ℚ × ℚ, isSegInterp l ox oy ctr ∧
        |prt.x - ctr.1| ≤ (3 / 2) * sw ∧ |prt.y - ctr.2| ≤ (3 / 2) * sw) ∧
      1 ≤ prt.size ∧ prt.size ≤ sw / 3 + 1 ∧
      3 / 10 ≤ prt.alpha ∧ prt.alpha ≤ 4 / 5 := by
  intro l
  induction l with
  | nil => intro c prt h; simp [sprayAux] at h
  | cons p l' ih =>
    intro c prt h
    cases l' with
    | nil => simp [sprayAux] at h
    | cons q rest =>
      rw [sprayAux] at h
      rcases List.mem_append.mp h with hmem | hmem
      · obtain ⟨j, hj, hprt⟩ := List.mem_map.mp hmem
        rw [List.mem_range] at hj
        set count := segParticleCount (p.x - ox) (p.y - oy) (q.x - ox) (q.y - oy) sw with hc
        have hcount1 : 1 ≤ count := le_trans (le_max_left _ _) (le_max_left _ _)
        have hcountQ : (0 : ℚ) < count := by exact_mod_cast hcount1
        have ht0 : (0 : ℚ) ≤ (j : ℚ) / (count : ℚ) :=
          div_nonneg (by positivity) (le_of_lt hcountQ)
        have ht1 : (j : ℚ) / (count : ℚ) < 1 :=
          (div_lt_one hcountQ).mpr (by exact_mod_cast hj)
        obtain ⟨hr0, hr1⟩ := hr (c + 4 * j)
        obtain ⟨hr0', hr1'⟩ := hr (c + 4 * j + 1)
        obtain ⟨hr0s, hr1s⟩ := hr (c + 4 * j + 2)
        obtain ⟨hr0a, hr1a⟩ := hr (c + 4 * j + 3)
        subst hprt
        refine ⟨⟨((p.x - ox) + ((q.x - ox) - (p.x - ox)) * ((j : ℚ) / (count : ℚ)),
            (p.y - oy) + ((q.y - oy) - (p.y - oy)) * ((j : ℚ) / (count : ℚ))),
            ⟨(p, q), by rw [adjPairs]; exact List.mem_cons_self _ _,
              (j : ℚ) / (count : ℚ), ht0, ht1, rfl, rfl⟩, ?_, ?_⟩, ?_, ?_, ?_, ?_⟩
        · show |(p.x - ox) + ((q.x - ox) - (p.x - ox)) * ((j : ℚ) / (count : ℚ)) +
              (rnd (c + 4 * j) - 1 / 2) * (sw * (3 / 2)) - _| ≤ _
          rw [show (p.x - ox) + ((q.x - ox) - (p.x - ox)) * ((j : ℚ) / (count : ℚ)) +
              (rnd (c + 4 * j) - 1 / 2) * (sw * (3 / 2)) -
              ((p.x - ox) + ((q.x - ox) - (p.x - ox)) * ((j : ℚ) / (count : ℚ)))
            = (rnd (c + 4 * j) - 1 / 2) * (sw * (3 / 2)) from by ring]
          rw [abs_mul]
          have h1 : |rnd (c + 4 * j) - 1 / 2| ≤ 1 / 2 := abs_le.mpr ⟨by linarith, by linarith⟩
          have h2 : |sw * (3 / 2)| = sw * (3 / 2) := abs_of_nonneg (by linarith)
          rw [h2]
          nlinarith [abs_nonneg (rnd (c + 4 * j) - 1 / 2)]
        · show |(p.y - oy) + ((q.y - oy) - (p.y - oy)) * ((j : ℚ) / (count : ℚ)) +
              (rnd (c + 4 * j + 1) - 1 / 2) * (sw * (3 / 2)) - _| ≤ _
          rw [show (p.y - oy) + ((q.y - oy) - (p.y - oy)) * ((j : ℚ) / (count : ℚ)) +
              (rnd (c + 4 * j + 1) - 1 / 2) * (sw * (3 / 2)) -
              ((p.y - oy) + ((q.y - oy) - (p.y - oy)) * ((j : ℚ) / (count : ℚ)))
            = (rnd (c + 4 * j + 1) - 1 / 2) * (sw * (3 / 2)) from by ring]
          rw [abs_mul]
          have h1 : |rnd (c + 4 * j + 1) - 1 / 2| ≤ 1 / 2 :=
            abs_le.mpr ⟨by linarith, by linarith⟩
          have h2 : |sw * (3 / 2)| = sw * (3 / 2) := abs_of_nonneg (by linarith)
          rw [h2]
          nlinarith [abs_nonneg (rnd (c + 4 * j + 1) - 1 / 2)]
        · show 1 ≤ rnd (c + 4 * j + 2) * (sw / 3) + 1
          nlinarith
        · show rnd (c + 4 * j + 2) * (sw / 3) + 1 ≤ sw / 3 + 1
          nlinarith
        · show 3 / 10 ≤ rnd (c + 4 * j + 3) * (1 / 2) + 3 / 10
          nlinarith
        · show rnd (c + 4 * j + 3) * (1 / 2) + 3 / 10 ≤ 4 / 5
          nlinarith
      · obtain ⟨⟨ctr, ⟨pq, hpq, tt, h0, h1, hx, hy⟩, hjx, hjy⟩, hrest⟩ := ih _ prt hmem
        exact ⟨⟨ctr, ⟨pq, by rw [adjPairs]; exact List.mem_cons_of_mem _ hpq,
          tt, h0, h1, hx, hy⟩, hjx, hjy⟩, hrest⟩

/-- C9 amended: when a spray-brush gesture commits, the frozen particle list
stored on the object is exactly the one generated at commit, and — for every
path, stroke width ≥ 0, and every draw of the random stream in [0,1) — every
particle's position is a segment-interpolated point plus a jitter bounded by
`1.5×strokeWidth` per axis, its radius lies in `[1, strokeWidth/3 + 1]`
(not `≤ strokeWidth/3`: the source adds 1), and its alpha lies in
`[0.3, 0.8]`. -/
theorem c9_spray_bounds (path : List Point) (sw ox oy : ℚ) (rnd : ℕ → ℚ)
    (hr : ∀ i, 0 ≤ rnd i ∧ rnd i < 1) (hsw : 0 ≤ sw) :
    (∀ prt ∈ generateSprayParticles path sw ox oy rnd,
      (∃ ctr : ℚ × ℚ, isSegInterp path ox oy ctr ∧
        |prt.x - ctr.1| ≤ (3 / 2) * sw ∧ |prt.y - ctr.2| ≤ (3 / 2) * sw) ∧
      1 ≤ prt.size ∧ prt.size ≤ sw / 3 + 1 ∧
      3 / 10 ≤ prt.alpha ∧ prt.alpha ≤ 4 / 5) ∧
    (∀ (brushColor newId : String) (brushOpacity : ℚ) (o : CanvasObject),
      commitBrush path sw brushColor .spray brushOpacity newId rnd = some o →
      o.data.sprayParticles = some (generateSprayParticles path sw
        ((brushBBox path).1 - sw) ((brushBBox path).2.1 - sw) rnd)) := by
  constructor
  · exact sprayAux_bounds sw ox oy rnd hr hsw path 0
  · intro bc nid bo o ho
    unfold commitBrush at ho
    split at ho
    · rw [Option.some_inj] at ho
      subst ho
      rfl
    · exact absurd ho (by simp)

/-- Concrete spray generation: path (0,0)-(4,0), stroke width 3, all random
draws 1/2 — two particles, each of size `(1/2)·(3/3) + 1 = 3/2`. -/
lemma spray_concrete_eval :
    generateSprayParticles [⟨0, 0⟩, ⟨4, 0⟩] 3 0 0 (fun _ => 1 / 2)
      = [⟨0, 0, 3 / 2, 11 / 20⟩, ⟨2, 0, 3 / 2, 11 / 20⟩] := by
  have hsqrt : Nat.sqrt (Int.toNat 4) = 2 := (Nat.eq_sqrt.mpr (by norm_num)).symm
  have hcount : segParticleCount ((0 : ℚ) - 0) ((0 : ℚ) - 0) ((4 : ℚ) - 0) ((0 : ℚ) - 0) 3
      = 2 := by
    unfold segParticleCount particleDensity
    norm_num [Int.floor_eq_iff, hsqrt]
  unfold generateSprayParticles
  rw [sprayAux]
  simp only
  rw [hcount]
  rw [show List.range 2 = [0, 1] from rfl]
  rw [sprayAux]
  simp only [List.map_cons, List.map_nil, List.append_nil]
  unfold sprayParticle
  simp only [Particle.mk.injEq, List.cons.injEq, and_true, List.nil_eq]
  norm_num

/-- C9 counterexample: the claim bounds each particle's radius by
`strokeWidth/3`, but with stroke width 3 and a middling random draw the
generated radius is `3/2 > 3/3 = strokeWidth/3` (the source adds 1 to the
scaled draw). -/
theorem c9_counterexample :
    ∃ prt ∈ generateSprayParticles [⟨0, 0⟩, ⟨4, 0⟩] 3 0 0 (fun _ => 1 / 2),
      (3 : ℚ) / 3 < prt.size := by
  rw [spray_concrete_eval]
  exact ⟨⟨0, 0, 3 / 2, 11 / 20⟩, List.mem_cons_self _ _, by norm_num⟩

/-- Witness for C9: the amended bounds at the concrete first particle, and
the frozen particle list stored by a concrete spray commit. -/
theorem c9_witness :
    ((generateSprayParticles [⟨0, 0⟩, ⟨4, 0⟩] 3 0 0 (fun _ => 1 / 2)).headD
        ⟨0, 0, 1, 1 / 2⟩).size ≤ 3 / 3 + 1 ∧
    (commitBrush [⟨0, 0⟩, ⟨4, 0⟩] 3 "#000000" .spray 1 "s" (fun _ => 1 / 2)).map
        (fun o => o.data.sprayParticles)
      = some (some (generateSprayParticles [⟨0, 0⟩, ⟨4, 0⟩] 3
          ((brushBBox [⟨0, 0⟩, ⟨4, 0⟩]).1 - 3) ((brushBBox [⟨0, 0⟩, ⟨4, 0⟩]).2.1 - 3)
          (fun _ => 1 / 2))) := by
  have hc := c9_spray_bounds [⟨0, 0⟩, ⟨4, 0⟩] 3 0 0 (fun _ => 1 / 2)
    (fun i => by norm_num) (by norm_num)
  constructor
  · have hmem : (generateSprayParticles [⟨0, 0⟩, ⟨4, 0⟩] 3 0 0 (fun _ => 1 / 2)).headD
        ⟨0, 0, 1, 1 / 2⟩ ∈ generateSprayParticles [⟨0, 0⟩, ⟨4, 0⟩] 3 0 0 (fun _ => 1 / 2) := by
      rw [spray_concrete_eval]
      exact List.mem_cons_self _ _
    exact (hc.1 _ hmem).2.2.1
  · obtain ⟨o, ho⟩ : ∃ o, commitBrush [⟨0, 0⟩, ⟨4, 0⟩] 3 "#000000" .spray 1 "s"
        (fun _ => 1 / 2) = some o := by
      unfold commitBrush
      rw [if_pos (by norm_num)]
      exact ⟨_, rfl⟩
    rw [ho, Option.map_some']
    rw [hc.2 "#000000" "s" 1 o ho]

end VisualEditor
